import Mathlib

/-!
# Verification of the `ReferenceValidator` (src/src/services/reference-validator.ts)

A shallow embedding of the reference-file validator: the four rule
evaluators (size, table-first, single-h1, valid-links), code-fence
stripping, the directory traversal, and the three validation scopes
(`validateFile`, `validateAll`, `validateCategory`).  The filesystem is
modelled as a flat list of nodes (files with content, directories);
`readFile`/`stat`/`readdir` become lookups over that list.  JavaScript
regular-expression tests are modelled by their matching semantics:
a `RegExp.test` is "some substring decomposes according to the pattern",
and the `exec` loop of the link scanner is a left-to-right scan (the
character classes used by the source exclude their delimiters, so the
scan is deterministic).
-/

/-! ## Character classes of the JavaScript regexes -/

/-- JavaScript's `\s` class (whitespace as matched by the validator's regexes). -/
def isJsSpace (c : Char) : Bool :=
  c = ' ' || c = '\t' || c = '\n' || c = '\r' || c = '\u000b' || c = '\u000c' ||
  c = '\u00a0' || c = '\u1680' || ('\u2000' ≤ c && c ≤ '\u200a') ||
  c = '\u2028' || c = '\u2029' || c = '\u202f' || c = '\u205f' ||
  c = '\u3000' || c = '\ufeff'

/-- JavaScript line terminators (relevant for multiline `^`/`$` and for `.`). -/
def isLineTerm (c : Char) : Bool :=
  c = '\n' || c = '\r' || c = '\u2028' || c = '\u2029'

/-- JavaScript `.` without the `s` flag: any character except a line terminator. -/
def jsDot (c : Char) : Bool := !isLineTerm c

/-- The `[-:|\s]` class of the table-separator part of the table regex. -/
def sepClass (c : Char) : Bool :=
  c = '-' || c = ':' || c = '|' || isJsSpace c

/-! ## Generic list/string helpers -/
/-- Whether `pat` is a prefix of `l`. -/
def startsWithL : List Char → List Char → Bool
  | _, [] => true
  | [], _ :: _ => false
  | c :: r, d :: s => c = d && startsWithL r s

/-- Whether `pat` occurs as a contiguous substring of `l`. -/
def hasSub : List Char → List Char → Bool
  | [], pat => startsWithL [] pat
  | c :: r, pat => startsWithL (c :: r) pat || hasSub r pat

/-- Split a character list at every character satisfying `p`
(the separators are dropped; adjacent separators yield empty segments). -/
def splitOnP (p : Char → Bool) : List Char → List (List Char)
  | [] => [[]]
  | c :: r =>
    let rest := splitOnP p r
    if p c then [] :: rest
    else
      match rest with
      | s :: t => (c :: s) :: t
      | [] => [[c]]

/-- Whether `pat` is a suffix of `l`. -/
def endsWithL (l pat : List Char) : Bool :=
  startsWithL l.reverse pat.reverse

/-! ## POSIX path arithmetic (node:path `join`, `dirname`, `relative`) -/
/-- Split a path into its `/`-separated segments. -/
def splitSlash (s : String) : List String :=
  (splitOnP (· = '/') s.data).map String.mk

/-- Normalisation of path segments, as performed by node's `path.join`:
empty and `.` segments are dropped, `..` pops the previous real segment
(kept when there is nothing to pop). The accumulator is reversed. -/
def normAux : List String → List String → List String
  | acc, [] => acc.reverse
  | acc, s :: r =>
    if s = "" || s = "." then normAux acc r
    else if s = ".." then
      match acc with
      | [] => normAux [".."] r
      | a :: acc' => if a = ".." then normAux (".." :: a :: acc') r else normAux acc' r
    else normAux (s :: acc) r

/-- Join a list of segments with `/`. -/
def joinSegs : List String → String
  | [] => ""
  | [s] => s
  | s :: r => s ++ "/" ++ joinSegs r

/-- Embedding of `path.join(a, b)` (POSIX): concatenate and normalise. -/
def joinPath (a b : String) : String :=
  let segs := normAux [] (splitSlash a ++ splitSlash b)
  let j := joinSegs segs
  if a.data.head? = some '/' then "/" ++ j
  else if j = "" then "." else j

/-- Drop trailing empty segments (trailing slashes of the path). -/
def dropTrailingEmpty (l : List String) : List String :=
  (l.reverse.dropWhile (· = "")).reverse

/-- Embedding of `path.dirname(p)` (POSIX). -/
def dirname (p : String) : String :=
  let segs := dropTrailingEmpty (splitSlash p)
  match segs with
  | [] => if p.data.head? = some '/' then "/" else "."
  | [_] => if p.data.head? = some '/' then "/" else "."
  | _ =>
    let d := joinSegs segs.dropLast
    if d = "" then (if p.data.head? = some '/' then "/" else ".") else d

/-- Last `/`-separated segment of a path (the filename). -/
def basename (p : String) : String :=
  (splitSlash p).getLastD ""

/-- Drop the longest common prefix of two segment lists. -/
def dropCommon : List String → List String → List String × List String
  | a :: as, b :: bs =>
    if a = b then dropCommon as bs else (a :: as, b :: bs)
  | as, bs => (as, bs)

/-- Embedding of `path.relative(a, b)` (POSIX, both paths resolved against the same root). -/
def relativePathOf (a b : String) : String :=
  let as := normAux [] (splitSlash a)
  let bs := normAux [] (splitSlash b)
  let (ar, br) := dropCommon as bs
  joinSegs (ar.map (fun _ => "..") ++ br)

/-! ## The filesystem model -/
/-- One filesystem node: a regular file with its content, or a directory. -/
inductive FSNode where
  | file (path : String) (content : String)
  | dir (path : String)

deriving DecidableEq

/-- The path of a node. -/
def FSNode.nodePath : FSNode → String
  | .file p _ => p
  | .dir p => p

/-- A filesystem snapshot: the finite set of existing nodes (listing order
of `readdir` is the order nodes appear in this list). -/
abbrev FS := List FSNode

/-- Embedding of `readFile(p)` as a lookup: the content of the first regular file at `p`.
Here `none` models the promise rejecting, i.e. any failing read: the path
is absent (ENOENT), is a directory (EISDIR), or is unreadable. -/
def FS.readFileContent : FS → String → Option String
  | fs, p =>
    fs.findSome? fun n =>
      match n with
      | .file q c => if q = p then some c else none
      | .dir _ => none

/-- Whether `stat(p)` succeeds: some node (file or directory) exists at `p`. -/
def FS.statExists (fs : FS) (p : String) : Bool :=
  fs.any (fun n => n.nodePath = p)

/-- Is there a directory at `p`? -/
def FS.isDir (fs : FS) (p : String) : Bool :=
  fs.any (fun n =>
    match n with
    | .dir q => q = p
    | .file _ _ => false)

/-- Embedding of `readdir(d, withFileTypes)`: the `(name, isDirectory)` entries whose
parent directory is `d`, in node-list order. -/
def FS.childrenOf (fs : FS) (d : String) : List (String × Bool) :=
  fs.filterMap fun n =>
    match n with
    | .file p _ => if dirname p = d then some (basename p, false) else none
    | .dir p => if dirname p = d then some (basename p, true) else none

/-! ## UTF-8 byte size (what `stat().size` reports for a text file) -/
/-- Byte length of a character list under UTF-8 encoding. -/
def byteSize (l : List Char) : Nat :=
  (l.map Char.utf8Size).sum

/-! ## The table regex  `/\|[^\n]+\|[\s\n]+\|[-:|\s]+\|/m`

`RegExp.test` is true iff some substring of the text matches, i.e. some
substring decomposes as `'|'`, a nonempty run of non-newline characters,
`'|'`, a nonempty run of whitespace, `'|'`, a nonempty run of
dash/colon/pipe/whitespace characters, `'|'`.  (The `m` flag is inert:
the pattern has no anchors.  `[\s\n]` is `\s` since `\n ∈ \s`.) -/
/-- All ways to split a list into a prefix and the rest. -/
def splitsAt (l : List Char) : List (List Char × List Char) :=
  (List.range (l.length + 1)).map (fun i => (l.take i, l.drop i))

/-- Does a match of the table regex start at the head of `l`? -/
def tableAt : List Char → Bool
  | '|' :: r =>
    (splitsAt r).any fun p =>
      !p.1.isEmpty && p.1.all (· ≠ '\n') &&
      (match p.2 with
       | '|' :: r2 =>
         (splitsAt r2).any fun q =>
           !q.1.isEmpty && q.1.all isJsSpace &&
           (match q.2 with
            | '|' :: r3 =>
              (splitsAt r3).any fun w =>
                !w.1.isEmpty && w.1.all sepClass &&
                (match w.2 with
                 | '|' :: _ => true
                 | _ => false)
            | _ => false)
       | _ => false)
  | _ => false

/-- Whether the table regex matches somewhere in `content`. -/
def hasTable (l : List Char) : Bool :=
  l.tails.any tableAt

/-! ## The h1 regex  `/^# .+$/gm`

With the `m` flag, `^`/`$` anchor at line-terminator boundaries, and `.`
cannot cross a line terminator, so the global match count is the number
of terminator-delimited lines of the form `'#'`, `' '`, then at least one
more character. -/
/-- The text split into lines at every JavaScript line terminator. -/
def linesJs (l : List Char) : List (List Char) :=
  splitOnP isLineTerm l

/-- Does a line match `^# .+$`? -/
def isH1Line : List Char → Bool
  | '#' :: ' ' :: rest => !rest.isEmpty && rest.all jsDot
  | _ => false

/-- Number of matches of `/^# .+$/gm` in the text. -/
def h1Count (l : List Char) : Nat :=
  (linesJs l).countP isH1Line

/-! ## Code-fence stripping  `content.replace(/```[\s\S]*?```/g, "")` -/
/-- Split at the first occurrence of three consecutive backticks:
`findFence l = some (pre, rest)` with `l = pre ++ backticks ++ rest`,
`pre` not containing the fence. -/
def findFence : List Char → Option (List Char × List Char)
  | '`' :: '`' :: '`' :: r => some ([], r)
  | c :: r => (findFence r).map (fun p => (c :: p.1, p.2))
  | [] => none

/-- One round of the lazy global replace of ```` ```...``` ```` spans:
remove the span from the leftmost fence to the nearest closing fence and
continue after it; a fence with no closing fence is left in place (the
regex then has no further match).  The fuel argument only makes the
recursion structural; every round consumes at least six characters, so a
fuel of the text length can never be exhausted. -/
def stripAux : Nat → List Char → List Char
  | 0, l => l
  | fuel + 1, l =>
    match findFence l with
    | none => l
    | some (pre, rest) =>
      match findFence rest with
      | none => l
      | some (_, rest2) => pre ++ stripAux fuel rest2

/-- Embedding of `content.replace(/```[\s\S]*?```/g, "")`. -/
def stripCodeBlocks (l : List Char) : List Char :=
  stripAux l.length l

/-! ## The link regex  `/\[([^\]]+)\]\(([^)]+)\)/g`

The `exec` loop extracts, left to right, the substrings
`'['`, text (nonempty, no `']'`), `']'`, `'('`, target (nonempty, no
`')'`), `')'`, continuing after each match.  Because the character
classes exclude their closing delimiters, the greedy runs are maximal
and matching is deterministic; a failed attempt resumes at the next
position. -/
/-- Try to complete a link match just after an opening `'['`; returns the
captured target and the remainder after the closing `')'`. -/
def tryLink (r : List Char) : Option (List Char × List Char) :=
  let s1 := r.span (· ≠ ']')
  if s1.1.isEmpty then none
  else
    match s1.2 with
    | ']' :: '(' :: r2 =>
      let s2 := r2.span (· ≠ ')')
      if s2.1.isEmpty then none
      else
        match s2.2 with
        | ')' :: rest => some (s2.1, rest)
        | _ => none
    | _ => none

/-- The `exec` loop: each step either consumes a whole match or advances
one character.  Fuel (the text length) bounds the recursion; every step
consumes at least one character, so the fuel never runs out. -/
def scanLinksAux : Nat → List Char → List (List Char)
  | 0, _ => []
  | _ + 1, [] => []
  | fuel + 1, '[' :: r =>
    (match tryLink r with
     | some (t, rest) => t :: scanLinksAux fuel rest
     | none => scanLinksAux fuel r)
  | fuel + 1, _ :: r => scanLinksAux fuel r

/-- All link targets appearing in the text, in match order. -/
def scanLinks (l : List Char) : List (List Char) :=
  scanLinksAux l.length l

/-! ## Result model (`ValidationError`, `ValidationWarning`, `ValidationResult`) -/
structure ValidationError where
  rule : String
  message : String

deriving DecidableEq

structure ValidationWarning where
  rule : String
  message : String

deriving DecidableEq

structure ValidationResult where
  path : String
  valid : Bool
  errors : List ValidationError
  warnings : List ValidationWarning

deriving DecidableEq

/-- The constant `SIZE_WARN_THRESHOLD = 2 * 1024`. -/
def SIZE_WARN_THRESHOLD : Nat := 2 * 1024

/-- The constant `SIZE_ERROR_THRESHOLD = 3 * 1024`. -/
def SIZE_ERROR_THRESHOLD : Nat := 3 * 1024

/-- The constant `EXCLUDED_FILES`. -/
def EXCLUDED_FILES : List String := ["README.md", "index.md", "releases.md"]

/-! ## Rule evaluators -/
/-- Embedding of `(size / 1024).toFixed(1)`: `size / 1024` is exact in binary floating
point (a power-of-two scaling of an integer below 2^53), and `toFixed(1)`
rounds it to the nearest tenth, ties away from zero. -/
def toFixed1 (size : Nat) : String :=
  let n := (size * 10 + 512) / 1024
  Nat.repr (n / 10) ++ "." ++ Nat.repr (n % 10)

/-- The size rule, error part. -/
def sizeErrors (size : Nat) : List ValidationError :=
  if size > SIZE_ERROR_THRESHOLD then
    [{ rule := "size", message := "File exceeds 3KB (" ++ toFixed1 size ++ "KB)" }]
  else []

/-- The size rule, warning part (only reached when the error branch is not). -/
def sizeWarnings (size : Nat) : List ValidationWarning :=
  if size > SIZE_ERROR_THRESHOLD then []
  else if size > SIZE_WARN_THRESHOLD then
    [{ rule := "size",
       message := "File exceeds 2KB (" ++ toFixed1 size ++ "KB), consider splitting" }]
  else []

/-- The table-first rule. -/
def tableErrors (content : List Char) : List ValidationError :=
  if hasTable content then []
  else [{ rule := "table-first", message := "File must contain at least one markdown table" }]

/-- The single-h1 rule, applied to the code-fence-stripped text. -/
def h1Errors (stripped : List Char) : List ValidationError :=
  if h1Count stripped = 0 then
    [{ rule := "single-h1", message := "File has no h1 heading (must have exactly one)" }]
  else if h1Count stripped > 1 then
    [{ rule := "single-h1",
       message := "File has multiple h1 headings (" ++ Nat.repr (h1Count stripped) ++
         "), must have exactly one" }]
  else []

/-- Does the target start with `http://` or `https://`? -/
def isExternalLink (t : List Char) : Bool :=
  startsWithL t "http://".data || startsWithL t "https://".data

/-- Does the target start with `#`? -/
def isAnchorLink (t : List Char) : Bool :=
  startsWithL t "#".data

/-- One step of the link-integrity rule for a single captured target. -/
def checkLink (fs : FS) (fileDir : String) (t : List Char) : Option ValidationError :=
  if isExternalLink t then none
  else if isAnchorLink t then none
  else if fs.statExists (joinPath fileDir (String.mk t)) then none
  else some { rule := "valid-links", message := "Broken internal link: " ++ String.mk t }

/-- Embedding of `validateInternalLinks(content, relativePath)`. -/
def validateInternalLinks (fs : FS) (referencesDir relativePath : String)
    (content : List Char) : List ValidationError :=
  let fileDir := joinPath referencesDir (dirname relativePath)
  (scanLinks content).filterMap (checkLink fs fileDir)

/-! ## The document validator -/
/-- The pure body of `validateFile`, once the document has been read:
run the four evaluators in source order and assemble the result. -/
def validateContent (fs : FS) (referencesDir relativePath : String)
    (content : String) : ValidationResult :=
  let size := byteSize content.data
  let errors :=
    sizeErrors size ++ tableErrors content.data ++
    h1Errors (stripCodeBlocks content.data) ++
    validateInternalLinks fs referencesDir relativePath content.data
  { path := relativePath
    valid := errors.length == 0
    errors := errors
    warnings := sizeWarnings size }

/-- Embedding of `validateFile(relativePath)`: read `referencesDir/relativePath` and
validate it; a failed read is a propagated error. -/
def validateFile (fs : FS) (referencesDir relativePath : String) :
    Except String ValidationResult :=
  match fs.readFileContent (joinPath referencesDir relativePath) with
  | none =>
    .error ("ENOENT: no such file or directory, open " ++ joinPath referencesDir relativePath)
  | some content => .ok (validateContent fs referencesDir relativePath content)

/-! ## Validation scopes -/
/-- Embedding of `relativePath.split("/").pop() || ""`. -/
def fileNameOf (relativePath : String) : String :=
  ((splitSlash relativePath).getLast?).getD ""

/-- The shared per-file loop of `validateAll`/`validateCategory`: skip
excluded filenames, validate the rest in order, propagating any failure. -/
def validateList (fs : FS) (referencesDir : String) :
    List String → Except String (List ValidationResult)
  | [] => .ok []
  | file :: rest =>
    if EXCLUDED_FILES.contains (fileNameOf (relativePathOf referencesDir file)) then
      validateList fs referencesDir rest
    else
      match validateFile fs referencesDir (relativePathOf referencesDir file) with
      | .error e => .error e
      | .ok r =>
        match validateList fs referencesDir rest with
        | .error e => .error e
        | .ok rs => .ok (r :: rs)

/-- The entry loop of `findMarkdownFiles`: for each `readdir` entry in
listing order, recurse (via `recur`) into subdirectories and collect
`.md` files, propagating the first failure. -/
def findMarkdownEntries (recur : String → Except String (List String)) :
    List (String × Bool) → String → Except String (List String)
  | [], _ => .ok []
  | (name, isDirEntry) :: rest, dir =>
    let fullPath := joinPath dir name
    if isDirEntry then
      match recur fullPath with
      | .error e => .error e
      | .ok sub =>
        match findMarkdownEntries recur rest dir with
        | .error e => .error e
        | .ok more => .ok (sub ++ more)
    else
      match findMarkdownEntries recur rest dir with
      | .error e => .error e
      | .ok more =>
        .ok ((if endsWithL name.data ".md".data then [fullPath] else []) ++ more)

/-- Embedding of `findMarkdownFiles(dir)`: depth-first traversal collecting `.md`
files; `readdir` of a missing directory is a propagated error.  The fuel
argument only bounds the recursion depth (the source recursion has no
bound; a fuel of one more than the node count can never be exhausted on
an acyclic tree). -/
def findMarkdownFiles (fs : FS) : Nat → String → Except String (List String)
  | 0, _ => .error "recursion depth exceeded"
  | fuel + 1, dir =>
    if FS.isDir fs dir then
      findMarkdownEntries (findMarkdownFiles fs fuel) (FS.childrenOf fs dir) dir
    else .error ("ENOENT: no such directory, scandir " ++ dir)

/-- Embedding of `validateAll()`. -/
def validateAll (fs : FS) (referencesDir : String) :
    Except String (List ValidationResult) :=
  match findMarkdownFiles fs (fs.length + 1) referencesDir with
  | .error e => .error e
  | .ok files => validateList fs referencesDir files

/-- Embedding of `validateCategory(category)`: a failed `stat` of the category path
yields the empty result list; after that the traversal proceeds as in
`validateAll` but rooted at the category path. -/
def validateCategory (fs : FS) (referencesDir category : String) :
    Except String (List ValidationResult) :=
  if FS.statExists fs (joinPath referencesDir category) then
    match findMarkdownFiles fs (fs.length + 1) (joinPath referencesDir category) with
    | .error e => .error e
    | .ok files => validateList fs referencesDir files
  else .ok []

/-- The text obtained by interleaving the given segments with ```` ``` ````
fences (`n` segments carry `n - 1` fence markers). -/
def interFences : List (List Char) → List Char
  | [] => []
  | [p] => p
  | p :: rest => p ++ '`' :: '`' :: '`' :: interFences rest

/-- What stripping should leave: complete fence pairs are removed together
with the text between them; a final unmatched fence marker and everything
after it survive. -/
def stripExpected : List (List Char) → List Char
  | [] => []
  | [p] => p
  | [p, q] => p ++ '`' :: '`' :: '`' :: q
  | p :: _ :: rest => p ++ stripExpected rest

/-- Fixture for the C6 witness. -/
def c6fs : FS := [FSNode.dir "refs", FSNode.file "refs/doc.md" "# T\n\n|a|\n|-|\n"]

/-- Fixture for the C8 witness. -/
def c8fs : FS := [FSNode.dir "refs", FSNode.file "refs/doc.md" "# T\n\n|a|\n|-|\n"]

/-- Fixture for the C8 counterexample: a regular file occupies the
category path, so the category subdirectory does not exist, but `stat`
of the path succeeds. -/
def c8ceFs : FS := [FSNode.dir "refs", FSNode.file "refs/cat" "x"]

/-- Fixture for the C9 witness. -/
def c9fs : FS := [FSNode.dir "refs", FSNode.file "refs/doc.md" "# T\n\n|a|\n|-|\n"]

/-- Fixture for the C5 witness: a tree containing a `README.md` whose
content would fail every rule. -/
def c5fs : FS :=
  [FSNode.dir "refs", FSNode.file "refs/README.md" "no heading no table",
   FSNode.file "refs/doc.md" "# T\n\n|a|\n|-|\n"]

set_option maxRecDepth 20000

/-- Fixture for the C7 witness: a document with no table, no heading and
one broken link, so the last three evaluators all fire. -/
def c7doc : String := "x [a](./missing.md)"

/-- Fixture filesystem for the C7 witness. -/
def c7fs : FS := [FSNode.dir "refs", FSNode.file "refs/doc.md" c7doc]

/-- Document for the C1 counterexample: 513 four-byte characters, hence
2052 bytes — inside the warning range — with no table and no heading. -/
def c1ceDoc : String := String.mk (List.replicate 513 (Char.ofNat 65536))

/-- Filesystem for the C1 counterexample. -/
def c1ceFs : FS := [FSNode.dir "refs", FSNode.file "refs/big.md" c1ceDoc]

/-- Document for the C1 witness: 769 four-byte characters, hence 3076
bytes — above the error threshold. -/
def c1wDoc : String := String.mk (List.replicate 769 (Char.ofNat 65536))

/-- Filesystem for the C1 witness. -/
def c1wFs : FS := [FSNode.dir "refs", FSNode.file "refs/huge.md" c1wDoc]

/-- Modelled from the claim's wording for the counterexample: a line
"starting with exactly one `#` followed by a space". -/
def claimH1Line : List Char → Bool
  | '#' :: ' ' :: _ => true
  | _ => false

/-- Document for the C3 counterexample: a bare `"# "` line (which the
claim's wording counts, but the regex `^# .+$` does not) plus one real
heading. -/
def c3ceDoc : String := "# \n# Real\n|a|\n|-|\n"

/-- Filesystem for the C3 counterexample. -/
def c3ceFs : FS := [FSNode.dir "refs", FSNode.file "refs/doc.md" c3ceDoc]

/-- Document for the C3 witness: the only extra `#`-prefixed line sits
inside a fenced code block, so exactly one heading remains after
stripping. -/
def c3wDoc : String := "```\n# fake\n```\n# Real\n|a|\n|-|\n"

/-- Filesystem for the C3 witness. -/
def c3wFs : FS := [FSNode.dir "refs", FSNode.file "refs/doc.md" c3wDoc]

/-- Modelled from the claim's wording for the counterexample: a
pipe-delimited line (`|…|` with nonempty interior). -/
def pipeDelimited (l : List Char) : Bool :=
  match l with
  | '|' :: rest => !rest.isEmpty && rest.getLast? = some '|' && rest.length ≥ 2
  | _ => false

/-- Modelled from the claim's wording: a blank line. -/
def blankLine (l : List Char) : Bool := l.all isJsSpace

/-- Modelled from the claim's wording: a pipe-delimited separator line made
only of dashes, colons, pipes and whitespace. -/
def sepLine (l : List Char) : Bool := pipeDelimited l && l.all sepClass

/-- Is the first non-blank line a separator line (blank lines skipped)? -/
def sepAfterBlanks : List (List Char) → Bool
  | [] => false
  | l :: r => if sepLine l then true else if blankLine l then sepAfterBlanks r else false

/-- Claim-level table scan over the lines of the text. -/
def claimTableScan : List (List Char) → Bool
  | [] => false
  | l :: r => (pipeDelimited l && sepAfterBlanks r) || claimTableScan r

/-- Modelled from the claim's wording: the text contains a pipe-delimited
header line followed, after optional blank lines, by a pipe-delimited
separator line made only of dashes, colons, pipes and whitespace. -/
def claimHasTable (content : List Char) : Bool :=
  claimTableScan (splitOnP (· = '\n') content)

/-- Document for the C4 counterexample: the regex pattern occurs inside a
single line, which is not a header line followed by a separator line. -/
def c4ceDoc : String := "x |a| |-| y\n"

/-- Filesystem for the C4 counterexample. -/
def c4ceFs : FS := [FSNode.dir "refs", FSNode.file "refs/doc.md" c4ceDoc]

/-- Document for the C4 witness: a well-formed header/separator pair. -/
def c4wDoc : String := "# T\n\n| a |\n|---|\n"

/-- Filesystem for the C4 witness. -/
def c4wFs : FS := [FSNode.dir "refs", FSNode.file "refs/doc.md" c4wDoc]

/-- Document for the C2 witness: its only link sits inside a fenced code
block and is broken. -/
def c2wDoc : String := "```\n[a](./missing.md)\n```\n"

/-- Filesystem for the C2 witness. -/
def c2wFs : FS := [FSNode.dir "refs", FSNode.file "refs/doc.md" c2wDoc]

/-- Segments for the C10 witness: three fence markers (an odd number); the
only heading outside a complete pair sits after the unmatched marker. -/
def c10parts : List (List Char) :=
  [("A\n").data, ("\n# Inside\n").data, ("\nx\n").data, ("\n# Trail\n").data]

/-! ## Helper lemmas: substring containment -/
theorem startsWithL_append_ext (l b pat : List Char) (h : startsWithL l pat = true) :
    startsWithL (l ++ b) pat = true := by
  induction pat generalizing l with
  | nil => simp [startsWithL]
  | cons d s ih =>
    cases l with
    | nil => simp [startsWithL] at h
    | cons c r =>
      simp [startsWithL] at h ⊢
      exact ⟨h.1, ih r h.2⟩

theorem startsWithL_self_append (pat b : List Char) :
    startsWithL (pat ++ b) pat = true := by
  induction pat with
  | nil => simp [startsWithL]
  | cons c r ih => simp [startsWithL, ih]

theorem hasSub_of_startsWithL (l pat : List Char) (h : startsWithL l pat = true) :
    hasSub l pat = true := by
  cases l with
  | nil => simpa [hasSub] using h
  | cons c r => simp [hasSub, h]

theorem hasSub_append_right (a b pat : List Char) (h : hasSub b pat = true) :
    hasSub (a ++ b) pat = true := by
  induction a with
  | nil => simpa using h
  | cons c r ih => simp [hasSub, ih]

theorem hasSub_append_left (a b pat : List Char) (h : hasSub a pat = true) :
    hasSub (a ++ b) pat = true := by
  induction a with
  | nil =>
    simp [hasSub] at h
    exact hasSub_of_startsWithL _ _ (startsWithL_append_ext _ _ _ h)
  | cons c r ih =>
    simp [hasSub] at h ⊢
    rcases h with h | h
    · exact Or.inl (startsWithL_append_ext _ _ _ h)
    · exact Or.inr (ih h)

/-! ## Helper lemmas: error filtering -/
theorem filter_none_of_all {l : List ValidationError} {p : ValidationError → Bool}
    (h : ∀ e ∈ l, p e = false) : l.filter p = [] := by
  induction l with
  | nil => rfl
  | cons e r ih =>
    have he := h e (by simp)
    simp [List.filter, he]
    exact fun x hx => h x (by simp [hx])

theorem filter_all_of_all {l : List ValidationError} {p : ValidationError → Bool}
    (h : ∀ e ∈ l, p e = true) : l.filter p = l := by
  induction l with
  | nil => rfl
  | cons e r ih =>
    have he := h e (by simp)
    simp [List.filter, he]
    exact fun x hx => h x (by simp [hx])

/-! ## Helper lemmas: rule tags of each evaluator's findings -/
theorem sizeErrors_rule {size : Nat} : ∀ e ∈ sizeErrors size, e.rule = "size" := by
  intro e he
  unfold sizeErrors at he
  split at he <;> simp_all

theorem tableErrors_rule {content : List Char} :
    ∀ e ∈ tableErrors content, e.rule = "table-first" := by
  intro e he
  unfold tableErrors at he
  split at he <;> simp_all

theorem h1Errors_rule {stripped : List Char} :
    ∀ e ∈ h1Errors stripped, e.rule = "single-h1" := by
  intro e he
  unfold h1Errors at he
  split at he
  · simp_all
  · split at he <;> simp_all

theorem checkLink_rule {fs : FS} {fileDir : String} {t : List Char} {e : ValidationError}
    (h : checkLink fs fileDir t = some e) : e.rule = "valid-links" := by
  unfold checkLink at h
  split at h
  · exact absurd h (by simp)
  · split at h
    · exact absurd h (by simp)
    · split at h
      · exact absurd h (by simp)
      · injection h with h; subst h; rfl

theorem validateInternalLinks_rule {fs : FS} {dir rel : String} {content : List Char} :
    ∀ e ∈ validateInternalLinks fs dir rel content, e.rule = "valid-links" := by
  intro e he
  unfold validateInternalLinks at he
  obtain ⟨t, _, ht⟩ := List.mem_filterMap.1 he
  exact checkLink_rule ht

/-! ## Helper lemmas: shape of `validateContent` and `validateFile` -/
theorem validateContent_errors (fs : FS) (dir rel : String) (content : String) :
    (validateContent fs dir rel content).errors =
      sizeErrors (byteSize content.data) ++ tableErrors content.data ++
      h1Errors (stripCodeBlocks content.data) ++
      validateInternalLinks fs dir rel content.data := rfl

theorem validateContent_warnings (fs : FS) (dir rel : String) (content : String) :
    (validateContent fs dir rel content).warnings =
      sizeWarnings (byteSize content.data) := rfl

theorem validateContent_path (fs : FS) (dir rel : String) (content : String) :
    (validateContent fs dir rel content).path = rel := rfl

theorem validateContent_valid (fs : FS) (dir rel : String) (content : String) :
    (validateContent fs dir rel content).valid =
      ((validateContent fs dir rel content).errors.length == 0) := rfl

theorem validateFile_ok {fs : FS} {dir rel content : String}
    (h : FS.readFileContent fs (joinPath dir rel) = some content) :
    validateFile fs dir rel = .ok (validateContent fs dir rel content) := by
  unfold validateFile
  rw [h]

theorem validateFile_ok_inv {fs : FS} {dir rel : String} {r : ValidationResult}
    (h : validateFile fs dir rel = .ok r) :
    ∃ content, FS.readFileContent fs (joinPath dir rel) = some content ∧
      r = validateContent fs dir rel content := by
  unfold validateFile at h
  split at h
  · exact absurd h (by simp)
  · rename_i content hc
    injection h with h
    exact ⟨content, hc, h.symm⟩

/-! ## Helper lemmas: per-rule slices of the error list -/
theorem errors_filter_size (fs : FS) (dir rel : String) (content : String) :
    (validateContent fs dir rel content).errors.filter (fun e => e.rule == "size") =
      sizeErrors (byteSize content.data) := by
  rw [validateContent_errors]
  rw [List.filter_append, List.filter_append, List.filter_append]
  rw [filter_all_of_all (fun e he => by simp [sizeErrors_rule e he])]
  rw [filter_none_of_all (fun e he => by simp [tableErrors_rule e he])]
  rw [filter_none_of_all (fun e he => by simp [h1Errors_rule e he])]
  rw [filter_none_of_all (fun e he => by simp [validateInternalLinks_rule e he])]
  simp

theorem errors_filter_table (fs : FS) (dir rel : String) (content : String) :
    (validateContent fs dir rel content).errors.filter (fun e => e.rule == "table-first") =
      tableErrors content.data := by
  rw [validateContent_errors]
  rw [List.filter_append, List.filter_append, List.filter_append]
  rw [filter_none_of_all (fun e he => by simp [sizeErrors_rule e he])]
  rw [filter_all_of_all (fun e he => by simp [tableErrors_rule e he])]
  rw [filter_none_of_all (fun e he => by simp [h1Errors_rule e he])]
  rw [filter_none_of_all (fun e he => by simp [validateInternalLinks_rule e he])]
  simp

theorem errors_filter_h1 (fs : FS) (dir rel : String) (content : String) :
    (validateContent fs dir rel content).errors.filter (fun e => e.rule == "single-h1") =
      h1Errors (stripCodeBlocks content.data) := by
  rw [validateContent_errors]
  rw [List.filter_append, List.filter_append, List.filter_append]
  rw [filter_none_of_all (fun e he => by simp [sizeErrors_rule e he])]
  rw [filter_none_of_all (fun e he => by simp [tableErrors_rule e he])]
  rw [filter_all_of_all (fun e he => by simp [h1Errors_rule e he])]
  rw [filter_none_of_all (fun e he => by simp [validateInternalLinks_rule e he])]
  simp

theorem errors_filter_links (fs : FS) (dir rel : String) (content : String) :
    (validateContent fs dir rel content).errors.filter (fun e => e.rule == "valid-links") =
      validateInternalLinks fs dir rel content.data := by
  rw [validateContent_errors]
  rw [List.filter_append, List.filter_append, List.filter_append]
  rw [filter_none_of_all (fun e he => by simp [sizeErrors_rule e he])]
  rw [filter_none_of_all (fun e he => by simp [tableErrors_rule e he])]
  rw [filter_none_of_all (fun e he => by simp [h1Errors_rule e he])]
  rw [filter_all_of_all (fun e he => by simp [validateInternalLinks_rule e he])]
  simp

/-! ## Helper lemmas: link checking -/
theorem validateInternalLinks_eq (fs : FS) (dir rel : String) (content : List Char) :
    validateInternalLinks fs dir rel content =
      (scanLinks content).filterMap (checkLink fs (joinPath dir (dirname rel))) := rfl

theorem checkLink_external {fs : FS} {fileDir : String} {t : List Char}
    (h : isExternalLink t = true) : checkLink fs fileDir t = none := by
  unfold checkLink
  simp [h]

theorem checkLink_resolve {fs : FS} {fileDir : String} {t : List Char}
    (h1 : isExternalLink t = false) (h2 : isAnchorLink t = false) :
    checkLink fs fileDir t =
      (if fs.statExists (joinPath fileDir (String.mk t)) then none
       else some { rule := "valid-links", message := "Broken internal link: " ++ String.mk t }) := by
  unfold checkLink
  simp [h1, h2]

theorem checkLink_message {fs : FS} {fileDir : String} {t : List Char} {e : ValidationError}
    (h : checkLink fs fileDir t = some e) :
    e.rule = "valid-links" ∧ hasSub e.message.data t = true := by
  refine ⟨checkLink_rule h, ?_⟩
  unfold checkLink at h
  split at h
  · exact absurd h (by simp)
  · split at h
    · exact absurd h (by simp)
    · split at h
      · exact absurd h (by simp)
      · injection h with h
        subst h
        show hasSub ("Broken internal link: " ++ String.mk t).data t = true
        rw [String.data_append]
        exact hasSub_append_right _ _ _
          (hasSub_of_startsWithL _ _ (by simpa using startsWithL_self_append t []))

/-! ## Helper lemmas: the per-file loop and validity -/
theorem validateFile_ok_valid {fs : FS} {dir rel : String} {r : ValidationResult}
    (h : validateFile fs dir rel = .ok r) :
    r.valid = (r.errors.length == 0) := by
  obtain ⟨content, _, hr⟩ := validateFile_ok_inv h
  subst hr
  rfl

theorem validateFile_ok_path {fs : FS} {dir rel : String} {r : ValidationResult}
    (h : validateFile fs dir rel = .ok r) : r.path = rel := by
  obtain ⟨content, _, hr⟩ := validateFile_ok_inv h
  subst hr
  rfl

theorem validateList_mem_valid {fs : FS} {dir : String} :
    ∀ {files : List String} {rs : List ValidationResult},
      validateList fs dir files = .ok rs →
      ∀ r ∈ rs, r.valid = (r.errors.length == 0) := by
  intro files
  induction files with
  | nil =>
    intro rs h r hr
    unfold validateList at h
    injection h with h
    subst h
    simp at hr
  | cons f rest ih =>
    intro rs h r hr
    unfold validateList at h
    split at h
    · exact ih h r hr
    · split at h
      · exact absurd h (by simp)
      · rename_i r0 h0
        split at h
        · exact absurd h (by simp)
        · rename_i rs' hrest
          injection h with h
          subst h
          rcases List.mem_cons.1 hr with h | h
          · subst h; exact validateFile_ok_valid h0
          · exact ih hrest r h

theorem validateList_mem_excluded {fs : FS} {dir : String} :
    ∀ {files : List String} {rs : List ValidationResult},
      validateList fs dir files = .ok rs →
      ∀ r ∈ rs, EXCLUDED_FILES.contains (fileNameOf r.path) = false := by
  intro files
  induction files with
  | nil =>
    intro rs h r hr
    unfold validateList at h
    injection h with h
    subst h
    simp at hr
  | cons f rest ih =>
    intro rs h r hr
    unfold validateList at h
    split at h
    · exact ih h r hr
    · rename_i hskip
      split at h
      · exact absurd h (by simp)
      · rename_i r0 h0
        split at h
        · exact absurd h (by simp)
        · rename_i rs' hrest
          injection h with h
          subst h
          rcases List.mem_cons.1 hr with h | h
          · subst h
            rw [validateFile_ok_path h0]
            simpa using hskip
          · exact ih hrest r h

theorem validateAll_mem_valid {fs : FS} {dir : String} {rs : List ValidationResult}
    (h : validateAll fs dir = .ok rs) :
    ∀ r ∈ rs, r.valid = (r.errors.length == 0) := by
  unfold validateAll at h
  split at h
  · exact absurd h (by simp)
  · exact validateList_mem_valid h

theorem validateCategory_mem_valid {fs : FS} {dir cat : String} {rs : List ValidationResult}
    (h : validateCategory fs dir cat = .ok rs) :
    ∀ r ∈ rs, r.valid = (r.errors.length == 0) := by
  unfold validateCategory at h
  split at h
  · split at h
    · exact absurd h (by simp)
    · exact validateList_mem_valid h
  · injection h with h
    subst h
    simp

theorem validateAll_mem_excluded {fs : FS} {dir : String} {rs : List ValidationResult}
    (h : validateAll fs dir = .ok rs) :
    ∀ r ∈ rs, EXCLUDED_FILES.contains (fileNameOf r.path) = false := by
  unfold validateAll at h
  split at h
  · exact absurd h (by simp)
  · exact validateList_mem_excluded h

theorem validateCategory_mem_excluded {fs : FS} {dir cat : String} {rs : List ValidationResult}
    (h : validateCategory fs dir cat = .ok rs) :
    ∀ r ∈ rs, EXCLUDED_FILES.contains (fileNameOf r.path) = false := by
  unfold validateCategory at h
  split at h
  · split at h
    · exact absurd h (by simp)
    · exact validateList_mem_excluded h
  · injection h with h
    subst h
    simp

/-! ## Helper lemmas: constructing a table-regex match -/
theorem tableAt_construct (hm y z rest : List Char)
    (hhm : hm ≠ []) (hnl : ∀ c ∈ hm, c ≠ '\n')
    (hy : y ≠ []) (hys : ∀ c ∈ y, isJsSpace c = true)
    (hz : z ≠ []) (hzs : ∀ c ∈ z, sepClass c = true) :
    tableAt ('|' :: (hm ++ '|' :: (y ++ '|' :: (z ++ '|' :: rest)))) = true := by
  show (splitsAt (hm ++ '|' :: (y ++ '|' :: (z ++ '|' :: rest)))).any _ = true
  rw [List.any_eq_true]
  refine ⟨(hm, '|' :: (y ++ '|' :: (z ++ '|' :: rest))), ?_, ?_⟩
  · unfold splitsAt
    rw [List.mem_map]
    refine ⟨hm.length, ?_, ?_⟩
    · rw [List.mem_range]
      simp
      omega
    · rw [List.take_left, List.drop_left]
  · simp only [Bool.and_eq_true]
    refine ⟨⟨by simpa using hhm, by rw [List.all_eq_true]; simpa using hnl⟩, ?_⟩
    show (splitsAt (y ++ '|' :: (z ++ '|' :: rest))).any _ = true
    rw [List.any_eq_true]
    refine ⟨(y, '|' :: (z ++ '|' :: rest)), ?_, ?_⟩
    · unfold splitsAt
      rw [List.mem_map]
      refine ⟨y.length, ?_, ?_⟩
      · rw [List.mem_range]
        simp
        omega
      · rw [List.take_left, List.drop_left]
    · simp only [Bool.and_eq_true]
      refine ⟨⟨by simpa using hy, by rw [List.all_eq_true]; simpa using hys⟩, ?_⟩
      show (splitsAt (z ++ '|' :: rest)).any _ = true
      rw [List.any_eq_true]
      refine ⟨(z, '|' :: rest), ?_, ?_⟩
      · unfold splitsAt
        rw [List.mem_map]
        refine ⟨z.length, ?_, ?_⟩
        · rw [List.mem_range]
          simp
          omega
        · rw [List.take_left, List.drop_left]
      · simp only [Bool.and_eq_true]
        exact ⟨⟨by simpa using hz, by rw [List.all_eq_true]; simpa using hzs⟩, by trivial⟩

theorem hasTable_construct (pre hm y z rest : List Char)
    (hhm : hm ≠ []) (hnl : ∀ c ∈ hm, c ≠ '\n')
    (hy : y ≠ []) (hys : ∀ c ∈ y, isJsSpace c = true)
    (hz : z ≠ []) (hzs : ∀ c ∈ z, sepClass c = true) :
    hasTable (pre ++ '|' :: (hm ++ '|' :: (y ++ '|' :: (z ++ '|' :: rest)))) = true := by
  unfold hasTable
  rw [List.any_eq_true]
  refine ⟨'|' :: (hm ++ '|' :: (y ++ '|' :: (z ++ '|' :: rest))), ?_, ?_⟩
  · rw [List.mem_tails]
    exact List.suffix_append pre _
  · exact tableAt_construct hm y z rest hhm hnl hy hys hz hzs

/-! ## Helper lemmas: code-fence stripping on fence-delimited segments -/
theorem findFence_cons_ne {c : Char} (l : List Char) (hc : c ≠ '`') :
    findFence (c :: l) = (findFence l).map (fun q => (c :: q.1, q.2)) := by
  rw [findFence.eq_def]
  split
  · rename_i r' heq
    injection heq with h1 _
    exact absurd h1 hc
  · rename_i hno heq
    injection heq with h1 h2
    subst h1; subst h2
    rfl
  · rename_i heq
    simp at heq

theorem findFence_none_of_noBT {p : List Char} (h : '`' ∉ p) : findFence p = none := by
  induction p with
  | nil => rfl
  | cons c r ih =>
    have hc : c ≠ '`' := fun hh => h (by simp [hh])
    rw [findFence_cons_ne r hc, ih (fun hh => h (by simp [hh]))]
    rfl

theorem findFence_seg {p : List Char} (r : List Char) (h : '`' ∉ p) :
    findFence (p ++ '`' :: '`' :: '`' :: r) = some (p, r) := by
  induction p with
  | nil => rfl
  | cons c q ih =>
    have hc : c ≠ '`' := fun hh => h (by simp [hh])
    rw [List.cons_append, findFence_cons_ne _ hc, ih (fun hh => h (by simp [hh]))]
    rfl

theorem stripAux_parts :
    ∀ (parts : List (List Char)) (fuel : Nat),
      (∀ p ∈ parts, '`' ∉ p) → (interFences parts).length ≤ fuel →
      stripAux fuel (interFences parts) = stripExpected parts
  | [], fuel, _, _ => by
    cases fuel with
    | zero => rfl
    | succ f => rfl
  | [p], fuel, h, _ => by
    cases fuel with
    | zero => rfl
    | succ f =>
      show stripAux (f + 1) p = p
      unfold stripAux
      rw [findFence_none_of_noBT (h p (by simp))]
  | [p, q], fuel, h, hfuel => by
    cases fuel with
    | zero =>
      exfalso
      have : (interFences [p, q]).length = p.length + 3 + q.length := by
        show (p ++ '`' :: '`' :: '`' :: q).length = _
        simp
        omega
      omega
    | succ f =>
      show stripAux (f + 1) (p ++ '`' :: '`' :: '`' :: q) = _
      unfold stripAux
      rw [findFence_seg q (h p (by simp))]
      dsimp only
      rw [findFence_none_of_noBT (h q (by simp))]
      rfl
  | p :: q :: r :: rest, fuel, h, hfuel => by
    cases fuel with
    | zero =>
      exfalso
      have : 3 ≤ (interFences (p :: q :: r :: rest)).length := by
        show 3 ≤ (p ++ '`' :: '`' :: '`' :: interFences (q :: r :: rest)).length
        simp
        omega
      omega
    | succ f =>
      show stripAux (f + 1) (p ++ '`' :: '`' :: '`' :: interFences (q :: r :: rest)) = _
      unfold stripAux
      rw [findFence_seg _ (h p (by simp))]
      dsimp only
      rw [show interFences (q :: r :: rest) =
            q ++ '`' :: '`' :: '`' :: interFences (r :: rest) from rfl]
      rw [findFence_seg _ (h q (by simp))]
      dsimp only
      have hlen : (interFences (r :: rest)).length ≤ f := by
        have : (interFences (p :: q :: r :: rest)).length =
            p.length + 3 + (q.length + 3 + (interFences (r :: rest)).length) := by
          show (p ++ '`' :: '`' :: '`' ::
            (q ++ '`' :: '`' :: '`' :: interFences (r :: rest))).length = _
          simp
          omega
        omega
      rw [stripAux_parts (r :: rest) f
        (fun x hx => h x (by simp at hx ⊢; tauto)) hlen]
      show stripExpected (p :: q :: r :: rest) = _
      rfl

theorem stripExpected_suffix :
    ∀ (ps : List (List Char)) (q : List Char), ps.length % 2 = 1 →
      ∃ pre, stripExpected (ps ++ [q]) = pre ++ '`' :: '`' :: '`' :: q
  | [], q, h => by simp at h
  | [p], q, _ => ⟨p, rfl⟩
  | p1 :: p2 :: ps'', q, h => by
    have h'' : ps''.length % 2 = 1 := by
      simp [List.length_cons] at h ⊢
      omega
    obtain ⟨pre', hp⟩ := stripExpected_suffix ps'' q h''
    refine ⟨p1 ++ pre', ?_⟩
    have hstep : stripExpected ((p1 :: p2 :: ps'') ++ [q]) =
        p1 ++ stripExpected (ps'' ++ [q]) := by
      cases ps'' with
      | nil => rfl
      | cons a b => rfl
    rw [hstep, hp, List.append_assoc]

/-! ## Helper lemmas: positions of rule tags in a concatenated error list -/
theorem idx_lt_of_rule {A B : List ValidationError} {p : ValidationError → Bool}
    (hB : ∀ e ∈ B, p e = false) {i : Nat} (h : i < (A ++ B).length)
    (hp : p ((A ++ B).get ⟨i, h⟩) = true) : i < A.length := by
  by_contra hge
  push_neg at hge
  have hmem : (A ++ B).get ⟨i, h⟩ ∈ B := by
    rw [List.get_eq_getElem, List.getElem_append_right hge]
    exact List.getElem_mem _
  rw [hB _ hmem] at hp
  exact Bool.false_ne_true hp

theorem idx_ge_of_rule {A B : List ValidationError} {p : ValidationError → Bool}
    (hA : ∀ e ∈ A, p e = false) {i : Nat} (h : i < (A ++ B).length)
    (hp : p ((A ++ B).get ⟨i, h⟩) = true) : A.length ≤ i := by
  by_contra hlt
  push_neg at hlt
  have hmem : (A ++ B).get ⟨i, h⟩ ∈ A := by
    rw [List.get_eq_getElem, List.getElem_append_left hlt]
    exact List.getElem_mem _
  rw [hA _ hmem] at hp
  exact Bool.false_ne_true hp

/-! ## Claim C6 -/
/-- Claim C6. Every `ValidationResult` returned by `validateFile` (and hence
every result in the lists returned by `validateAll` and `validateCategory`)
satisfies `valid = (errors.length == 0)`: validity is a function of the
error list alone, so warnings never affect it. -/
theorem c6_valid_iff_no_errors (fs : FS) (dir : String) :
    (∀ rel r, validateFile fs dir rel = .ok r → r.valid = (r.errors.length == 0)) ∧
    (∀ rs, validateAll fs dir = .ok rs → ∀ r ∈ rs, r.valid = (r.errors.length == 0)) ∧
    (∀ cat rs, validateCategory fs dir cat = .ok rs →
      ∀ r ∈ rs, r.valid = (r.errors.length == 0)) :=
  ⟨fun _ _ h => validateFile_ok_valid h,
   fun _ h => validateAll_mem_valid h,
   fun _ _ h => validateCategory_mem_valid h⟩

/-- Witness for C6 at a concrete filesystem: the hypothesis
`validateFile … = .ok …` is discharged by evaluation. -/
theorem c6_valid_iff_no_errors_witness :
    (validateContent c6fs "refs" "doc.md" "# T\n\n|a|\n|-|\n").valid =
      ((validateContent c6fs "refs" "doc.md" "# T\n\n|a|\n|-|\n").errors.length == 0) :=
  (c6_valid_iff_no_errors c6fs "refs").1 "doc.md"
    (validateContent c6fs "refs" "doc.md" "# T\n\n|a|\n|-|\n") rfl

/-! ## Claim C8 -/
/-- Claim C8, amended. For every category name whose path does not exist
at all under the reference root (no file and no directory at
`join(referencesDir, category)`), `validateCategory` returns the empty
result list and never propagates an error.  (The original claim's
"subdirectory does not exist" also covers a regular file at the category
path; there `stat` succeeds and the subsequent `readdir` failure is
propagated — see the counterexample.) -/
theorem c8_missing_category (fs : FS) (dir cat : String)
    (h : FS.statExists fs (joinPath dir cat) = false) :
    validateCategory fs dir cat = Except.ok [] := by
  unfold validateCategory
  simp [h]

/-- Counterexample to C8 as stated. A regular file sits at the category
path, so the category subdirectory does not exist — yet `validateCategory`
raises: `stat` succeeds on the file, the catch branch is not taken, and
`readdir` of the file fails and propagates, so the result is an error,
not the empty list. -/
theorem c8_missing_category_counterexample :
    FS.isDir c8ceFs (joinPath "refs" "cat") = false ∧
    validateCategory c8ceFs "refs" "cat" =
      Except.error ("ENOENT: no such directory, scandir " ++ joinPath "refs" "cat") :=
  ⟨by decide, rfl⟩

/-- Witness for C8 (amended): a category path with no node at all behind it. -/
theorem c8_missing_category_witness :
    FS.statExists c8fs (joinPath "refs" "nonexistent") = false ∧
    validateCategory c8fs "refs" "nonexistent" = Except.ok [] :=
  ⟨by decide, c8_missing_category c8fs "refs" "nonexistent" (by decide)⟩

/-! ## Claim C9 -/
/-- Claim C9. For every relative path naming a file absent under the reference
root, `validateFile` fails with a propagated I/O error: it returns the
`ENOENT` failure and never an `ok` result (so the failure is neither
swallowed nor embedded as findings in a `ValidationResult`). -/
theorem c9_missing_file (fs : FS) (dir rel : String)
    (h : FS.readFileContent fs (joinPath dir rel) = none) :
    validateFile fs dir rel =
      Except.error ("ENOENT: no such file or directory, open " ++ joinPath dir rel) ∧
    ∀ r, validateFile fs dir rel ≠ Except.ok r := by
  have h1 : validateFile fs dir rel =
      Except.error ("ENOENT: no such file or directory, open " ++ joinPath dir rel) := by
    unfold validateFile
    rw [h]
  refine ⟨h1, fun r hr => ?_⟩
  rw [h1] at hr
  exact absurd hr (by simp)

/-- Witness for C9: validating a path with no file behind it. -/
theorem c9_missing_file_witness :
    FS.readFileContent c9fs (joinPath "refs" "missing.md") = none ∧
    validateFile c9fs "refs" "missing.md" =
      Except.error ("ENOENT: no such file or directory, open " ++ joinPath "refs" "missing.md") :=
  ⟨rfl, (c9_missing_file c9fs "refs" "missing.md" rfl).1⟩

/-! ## Claim C5 -/
/-- Claim C5. No `ValidationResult` produced by `validateAll` or
`validateCategory` has a path whose filename is `README.md`, `index.md`,
or `releases.md`, whatever the content of those files: the excluded
filenames are skipped before evaluation. -/
theorem c5_excluded_files (fs : FS) (dir : String) :
    (∀ rs, validateAll fs dir = .ok rs → ∀ r ∈ rs,
      EXCLUDED_FILES.contains (fileNameOf r.path) = false ∧
      fileNameOf r.path ≠ "README.md" ∧ fileNameOf r.path ≠ "index.md" ∧
      fileNameOf r.path ≠ "releases.md") ∧
    (∀ cat rs, validateCategory fs dir cat = .ok rs → ∀ r ∈ rs,
      EXCLUDED_FILES.contains (fileNameOf r.path) = false ∧
      fileNameOf r.path ≠ "README.md" ∧ fileNameOf r.path ≠ "index.md" ∧
      fileNameOf r.path ≠ "releases.md") := by
  constructor
  · intro rs h r hr
    have hx := validateAll_mem_excluded h r hr
    refine ⟨hx, ?_, ?_, ?_⟩ <;>
      · intro heq
        rw [heq] at hx
        exact absurd hx (by decide)
  · intro cat rs h r hr
    have hx := validateCategory_mem_excluded h r hr
    refine ⟨hx, ?_, ?_, ?_⟩ <;>
      · intro heq
        rw [heq] at hx
        exact absurd hx (by decide)

/-- Witness for C5: `validateAll` over the fixture returns only the
non-excluded document. -/
theorem c5_excluded_files_witness :
    validateAll c5fs "refs" =
      Except.ok [validateContent c5fs "refs" "doc.md" "# T\n\n|a|\n|-|\n"] ∧
    ∀ r ∈ [validateContent c5fs "refs" "doc.md" "# T\n\n|a|\n|-|\n"],
      EXCLUDED_FILES.contains (fileNameOf r.path) = false ∧
      fileNameOf r.path ≠ "README.md" ∧ fileNameOf r.path ≠ "index.md" ∧
      fileNameOf r.path ≠ "releases.md" :=
  ⟨rfl, (c5_excluded_files c5fs "refs").1 _ rfl⟩

/-! ## Claim C7 -/
theorem idx_lt_of_rule_eq {E A B : List ValidationError} (hEq : E = A ++ B)
    (p : ValidationError → Bool) (hB : ∀ e ∈ B, p e = false) {i : Nat}
    (h : i < E.length) (hp : p (E.get ⟨i, h⟩) = true) : i < A.length := by
  subst hEq
  exact idx_lt_of_rule hB h hp

theorem idx_ge_of_rule_eq {E A B : List ValidationError} (hEq : E = A ++ B)
    (p : ValidationError → Bool) (hA : ∀ e ∈ A, p e = false) {i : Nat}
    (h : i < E.length) (hp : p (E.get ⟨i, h⟩) = true) : A.length ≤ i := by
  subst hEq
  exact idx_ge_of_rule hA h hp

/-- Claim C7. The function `validateFile` always runs all four rule evaluators and its
error list is the concatenation of their findings in the fixed order
size → table-first → single-h1 → valid-links; each evaluator only tags
findings with its own rule name, so in particular every size-tagged error
precedes every valid-links-tagged error.  Warnings are exactly the size
rule's warnings. -/
theorem c7_rule_order (fs : FS) (dir rel content : String)
    (h : FS.readFileContent fs (joinPath dir rel) = some content) :
    validateFile fs dir rel = .ok (validateContent fs dir rel content) ∧
    (validateContent fs dir rel content).errors =
      sizeErrors (byteSize content.data) ++ tableErrors content.data ++
      h1Errors (stripCodeBlocks content.data) ++
      validateInternalLinks fs dir rel content.data ∧
    (validateContent fs dir rel content).warnings =
      sizeWarnings (byteSize content.data) ∧
    (∀ e ∈ sizeErrors (byteSize content.data), e.rule = "size") ∧
    (∀ e ∈ tableErrors content.data, e.rule = "table-first") ∧
    (∀ e ∈ h1Errors (stripCodeBlocks content.data), e.rule = "single-h1") ∧
    (∀ e ∈ validateInternalLinks fs dir rel content.data, e.rule = "valid-links") ∧
    (∀ i j (hi : i < (validateContent fs dir rel content).errors.length)
       (hj : j < (validateContent fs dir rel content).errors.length),
       ((validateContent fs dir rel content).errors.get ⟨i, hi⟩).rule = "size" →
       ((validateContent fs dir rel content).errors.get ⟨j, hj⟩).rule = "valid-links" →
       i < j) := by
  refine ⟨validateFile_ok h, validateContent_errors fs dir rel content,
    validateContent_warnings fs dir rel content,
    sizeErrors_rule, tableErrors_rule, h1Errors_rule, validateInternalLinks_rule, ?_⟩
  intro i j hi hj hsize hlinks
  have hEq1 : (validateContent fs dir rel content).errors =
      sizeErrors (byteSize content.data) ++
      (tableErrors content.data ++ (h1Errors (stripCodeBlocks content.data) ++
        validateInternalLinks fs dir rel content.data)) := by
    rw [validateContent_errors]
    simp [List.append_assoc]
  have hEq2 : (validateContent fs dir rel content).errors =
      (sizeErrors (byteSize content.data) ++ tableErrors content.data ++
        h1Errors (stripCodeBlocks content.data)) ++
      validateInternalLinks fs dir rel content.data := by
    rw [validateContent_errors]
  have hi' : i < (sizeErrors (byteSize content.data)).length := by
    refine idx_lt_of_rule_eq hEq1 (fun e => e.rule == "size") ?_ hi
      (by simpa using hsize)
    intro e he
    rcases List.mem_append.1 he with he | he
    · simp [tableErrors_rule e he]
    · rcases List.mem_append.1 he with he | he
      · simp [h1Errors_rule e he]
      · simp [validateInternalLinks_rule e he]
  have hj' : (sizeErrors (byteSize content.data) ++ tableErrors content.data ++
      h1Errors (stripCodeBlocks content.data)).length ≤ j := by
    refine idx_ge_of_rule_eq hEq2 (fun e => e.rule == "valid-links") ?_ hj
      (by simpa using hlinks)
    intro e he
    rcases List.mem_append.1 he with he | he
    · rcases List.mem_append.1 he with he | he
      · simp [sizeErrors_rule e he]
      · simp [tableErrors_rule e he]
    · simp [h1Errors_rule e he]
  have : (sizeErrors (byteSize content.data)).length ≤
      (sizeErrors (byteSize content.data) ++ tableErrors content.data ++
        h1Errors (stripCodeBlocks content.data)).length := by
    simp
  omega

/-- Witness for C7: on the fixture document the firing evaluators appear
in declaration order. -/
theorem c7_rule_order_witness :
    FS.readFileContent c7fs (joinPath "refs" "doc.md") = some c7doc ∧
    validateFile c7fs "refs" "doc.md" =
      Except.ok (validateContent c7fs "refs" "doc.md" c7doc) ∧
    (validateContent c7fs "refs" "doc.md" c7doc).errors.map (fun e => e.rule) =
      ["table-first", "single-h1", "valid-links"] :=
  ⟨rfl, (c7_rule_order c7fs "refs" "doc.md" c7doc rfl).1, by decide⟩

/-! ## Claim C1 -/
/-- Claim C1, amended. For every readable document: a byte size strictly
above 3072 yields exactly one size-tagged error (mentioning "3KB") and
makes the result invalid; a size of at most 3072 yields no size-tagged
error; a size in 2049..3072 yields exactly one size-tagged warning
mentioning "2KB"; a size of at most 2048 yields neither; and the result
is valid exactly when the whole error list is empty — so in the warning
range the size rule alone never invalidates the document, but `valid`
is `true` only if the remaining rules also produce no errors (this last
point is where the original claim overstated the code). -/
theorem c1_size_rule (fs : FS) (dir rel content : String)
    (h : FS.readFileContent fs (joinPath dir rel) = some content) :
    validateFile fs dir rel = .ok (validateContent fs dir rel content) ∧
    (byteSize content.data > 3072 →
      (validateContent fs dir rel content).valid = false ∧
      (validateContent fs dir rel content).errors.filter (fun e => e.rule == "size") =
        [{ rule := "size",
           message := "File exceeds 3KB (" ++ toFixed1 (byteSize content.data) ++ "KB)" }] ∧
      ∃ e ∈ (validateContent fs dir rel content).errors,
        e.rule = "size" ∧ hasSub e.message.data ("3KB").data = true) ∧
    (byteSize content.data ≤ 3072 →
      (validateContent fs dir rel content).errors.filter (fun e => e.rule == "size") = []) ∧
    (2049 ≤ byteSize content.data → byteSize content.data ≤ 3072 →
      (validateContent fs dir rel content).warnings =
        [{ rule := "size",
           message := "File exceeds 2KB (" ++ toFixed1 (byteSize content.data) ++
             "KB), consider splitting" }] ∧
      ∃ w ∈ (validateContent fs dir rel content).warnings,
        w.rule = "size" ∧ hasSub w.message.data ("2KB").data = true) ∧
    (byteSize content.data ≤ 2048 →
      (validateContent fs dir rel content).warnings = [] ∧
      (validateContent fs dir rel content).errors.filter (fun e => e.rule == "size") = []) ∧
    ((validateContent fs dir rel content).valid = true ↔
      (validateContent fs dir rel content).errors = []) := by
  refine ⟨validateFile_ok h, ?_, ?_, ?_, ?_, ?_⟩
  · intro hgt
    have hsz : sizeErrors (byteSize content.data) =
        [{ rule := "size",
           message := "File exceeds 3KB (" ++ toFixed1 (byteSize content.data) ++ "KB)" }] := by
      unfold sizeErrors SIZE_ERROR_THRESHOLD
      rw [if_pos (by omega)]
    refine ⟨?_, by rw [errors_filter_size, hsz], ?_⟩
    · have hlen : (validateContent fs dir rel content).errors.length ≠ 0 := by
        rw [validateContent_errors, hsz]
        simp
      rw [validateContent_valid]
      simp only [beq_eq_false_iff_ne, ne_eq]
      simp [hlen]
    · refine ⟨⟨"size", "File exceeds 3KB (" ++ toFixed1 (byteSize content.data) ++ "KB)"⟩,
        ?_, rfl, ?_⟩
      · rw [validateContent_errors, hsz]
        simp
      · show hasSub ("File exceeds 3KB (" ++ toFixed1 (byteSize content.data) ++ "KB)").data
          ("3KB").data = true
        rw [String.data_append, String.data_append]
        apply hasSub_append_left
        apply hasSub_append_left
        decide
  · intro hle
    rw [errors_filter_size]
    unfold sizeErrors SIZE_ERROR_THRESHOLD
    rw [if_neg (by omega)]
  · intro hge hle
    have hw : sizeWarnings (byteSize content.data) =
        [{ rule := "size",
           message := "File exceeds 2KB (" ++ toFixed1 (byteSize content.data) ++
             "KB), consider splitting" }] := by
      unfold sizeWarnings SIZE_ERROR_THRESHOLD SIZE_WARN_THRESHOLD
      rw [if_neg (by omega), if_pos (by omega)]
    refine ⟨by rw [validateContent_warnings, hw], ?_⟩
    refine ⟨⟨"size", "File exceeds 2KB (" ++ toFixed1 (byteSize content.data) ++
        "KB), consider splitting"⟩, ?_, rfl, ?_⟩
    · rw [validateContent_warnings, hw]
      simp
    · show hasSub ("File exceeds 2KB (" ++ toFixed1 (byteSize content.data) ++
        "KB), consider splitting").data ("2KB").data = true
      rw [String.data_append, String.data_append]
      apply hasSub_append_left
      apply hasSub_append_left
      decide
  · intro hle
    constructor
    · rw [validateContent_warnings]
      unfold sizeWarnings SIZE_ERROR_THRESHOLD SIZE_WARN_THRESHOLD
      rw [if_neg (by omega), if_neg (by omega)]
    · rw [errors_filter_size]
      unfold sizeErrors SIZE_ERROR_THRESHOLD
      rw [if_neg (by omega)]
  · rw [validateContent_valid]
    simp [List.length_eq_zero]

/-- Counterexample to C1 as stated. A document of 2052 bytes (within
2049..3072) for which `validateFile` succeeds with the size warning but
`valid = false` (the document violates other rules), contradicting the
claim that every document in that range gets `valid = true`. -/
theorem c1_size_rule_counterexample :
    2049 ≤ byteSize c1ceDoc.data ∧ byteSize c1ceDoc.data ≤ 3072 ∧
    validateFile c1ceFs "refs" "big.md" =
      Except.ok (validateContent c1ceFs "refs" "big.md" c1ceDoc) ∧
    (validateContent c1ceFs "refs" "big.md" c1ceDoc).warnings.map (fun w => w.rule) =
      ["size"] ∧
    (validateContent c1ceFs "refs" "big.md" c1ceDoc).valid = false :=
  ⟨by decide, by decide, rfl, by decide, by decide⟩

/-- Witness for C1 (amended): hypotheses discharged on a concrete
oversized document. -/
theorem c1_size_rule_witness :
    FS.readFileContent c1wFs (joinPath "refs" "huge.md") = some c1wDoc ∧
    byteSize c1wDoc.data > 3072 ∧
    ((validateContent c1wFs "refs" "huge.md" c1wDoc).valid = false ∧
     (validateContent c1wFs "refs" "huge.md" c1wDoc).errors.filter
        (fun e => e.rule == "size") =
       [{ rule := "size",
          message := "File exceeds 3KB (" ++ toFixed1 (byteSize c1wDoc.data) ++ "KB)" }] ∧
     ∃ e ∈ (validateContent c1wFs "refs" "huge.md" c1wDoc).errors,
       e.rule = "size" ∧ hasSub e.message.data ("3KB").data = true) :=
  ⟨rfl, by decide, (c1_size_rule c1wFs "refs" "huge.md" c1wDoc rfl).2.1 (by decide)⟩

/-! ## Claim C3 -/
/-- Claim C3, amended. After removing fenced code blocks, `validateFile`
counts the lines matching `^# .+$` — exactly one `#`, a space, and at
least one further character (a bare `"# "` line does not count; this
nonempty-title requirement is where the original claim's wording
diverged).  Zero matches yield one `single-h1` error containing "no";
two or more yield one `single-h1` error containing "multiple" and the
exact count; exactly one yields no `single-h1` finding. -/
theorem c3_single_h1 (fs : FS) (dir rel content : String)
    (h : FS.readFileContent fs (joinPath dir rel) = some content) :
    validateFile fs dir rel = .ok (validateContent fs dir rel content) ∧
    (h1Count (stripCodeBlocks content.data) = 0 →
      (validateContent fs dir rel content).errors.filter (fun e => e.rule == "single-h1") =
        [{ rule := "single-h1", message := "File has no h1 heading (must have exactly one)" }] ∧
      ∃ e ∈ (validateContent fs dir rel content).errors,
        e.rule = "single-h1" ∧ hasSub e.message.data ("no").data = true) ∧
    (h1Count (stripCodeBlocks content.data) > 1 →
      (validateContent fs dir rel content).errors.filter (fun e => e.rule == "single-h1") =
        [{ rule := "single-h1",
           message := "File has multiple h1 headings (" ++
             Nat.repr (h1Count (stripCodeBlocks content.data)) ++ "), must have exactly one" }] ∧
      ∃ e ∈ (validateContent fs dir rel content).errors,
        e.rule = "single-h1" ∧ hasSub e.message.data ("multiple").data = true ∧
        hasSub e.message.data (Nat.repr (h1Count (stripCodeBlocks content.data))).data = true) ∧
    (h1Count (stripCodeBlocks content.data) = 1 →
      (validateContent fs dir rel content).errors.filter (fun e => e.rule == "single-h1") = []) := by
  refine ⟨validateFile_ok h, ?_, ?_, ?_⟩
  · intro h0
    have he : h1Errors (stripCodeBlocks content.data) =
        [{ rule := "single-h1", message := "File has no h1 heading (must have exactly one)" }] := by
      unfold h1Errors
      rw [if_pos h0]
    refine ⟨by rw [errors_filter_h1, he], ?_⟩
    refine ⟨⟨"single-h1", "File has no h1 heading (must have exactly one)"⟩, ?_, rfl, by decide⟩
    rw [validateContent_errors, he]
    simp
  · intro h1
    have he : h1Errors (stripCodeBlocks content.data) =
        [{ rule := "single-h1",
           message := "File has multiple h1 headings (" ++
             Nat.repr (h1Count (stripCodeBlocks content.data)) ++ "), must have exactly one" }] := by
      unfold h1Errors
      rw [if_neg (by omega), if_pos h1]
    refine ⟨by rw [errors_filter_h1, he], ?_⟩
    refine ⟨⟨"single-h1", "File has multiple h1 headings (" ++
      Nat.repr (h1Count (stripCodeBlocks content.data)) ++ "), must have exactly one"⟩,
      ?_, rfl, ?_, ?_⟩
    · rw [validateContent_errors, he]
      simp
    · show hasSub ("File has multiple h1 headings (" ++
        Nat.repr (h1Count (stripCodeBlocks content.data)) ++ "), must have exactly one").data
        ("multiple").data = true
      rw [String.data_append, String.data_append]
      apply hasSub_append_left
      apply hasSub_append_left
      decide
    · show hasSub ("File has multiple h1 headings (" ++
        Nat.repr (h1Count (stripCodeBlocks content.data)) ++ "), must have exactly one").data
        (Nat.repr (h1Count (stripCodeBlocks content.data))).data = true
      rw [String.data_append, String.data_append]
      apply hasSub_append_left
      apply hasSub_append_right
      have hself := startsWithL_self_append
        (Nat.repr (h1Count (stripCodeBlocks content.data))).data []
      exact hasSub_of_startsWithL _ _ (by simpa using hself)
  · intro h1
    rw [errors_filter_h1]
    unfold h1Errors
    rw [if_neg (by omega), if_neg (by omega)]

/-- Counterexample to C3 as stated. The stripped text has two lines
starting with exactly one `#` followed by a space, so the claim demands a
`single-h1` error mentioning "multiple" — but the code counts only `^# .+$`
matches (one here) and emits no `single-h1` finding at all. -/
theorem c3_single_h1_counterexample :
    (linesJs (stripCodeBlocks c3ceDoc.data)).countP claimH1Line = 2 ∧
    (validateContent c3ceFs "refs" "doc.md" c3ceDoc).errors.filter
      (fun e => e.rule == "single-h1") = [] ∧
    validateFile c3ceFs "refs" "doc.md" =
      Except.ok (validateContent c3ceFs "refs" "doc.md" c3ceDoc) :=
  ⟨by decide, by decide, rfl⟩

/-- Witness for C3 (amended): the raw text has two `^# .+$` lines, the
stripped text one, and no `single-h1` finding is emitted. -/
theorem c3_single_h1_witness :
    FS.readFileContent c3wFs (joinPath "refs" "doc.md") = some c3wDoc ∧
    (linesJs c3wDoc.data).countP isH1Line = 2 ∧
    h1Count (stripCodeBlocks c3wDoc.data) = 1 ∧
    (validateContent c3wFs "refs" "doc.md" c3wDoc).errors.filter
      (fun e => e.rule == "single-h1") = [] :=
  ⟨rfl, by decide, by decide,
   (c3_single_h1 c3wFs "refs" "doc.md" c3wDoc rfl).2.2.2 (by decide)⟩

/-! ## Claim C4 -/
/-- Claim C4, amended. The validator emits a `table-first` error exactly
when the table regex finds no match in the raw text.  Any well-formed
pipe-delimited header followed, after whitespace (e.g. a newline and
optional blank lines), by a pipe-delimited separator of dashes, colons,
pipes and whitespace produces a match, so such documents never get the
finding; but the match need not span two distinct lines, which is where
the original claim's line-based reading diverged. -/
theorem c4_table_first (fs : FS) (dir rel content : String)
    (h : FS.readFileContent fs (joinPath dir rel) = some content) :
    validateFile fs dir rel = .ok (validateContent fs dir rel content) ∧
    (validateContent fs dir rel content).errors.filter (fun e => e.rule == "table-first") =
      (if hasTable content.data then []
       else [{ rule := "table-first", message := "File must contain at least one markdown table" }]) ∧
    (∀ pre hm y z rest,
      content.data = pre ++ '|' :: (hm ++ '|' :: (y ++ '|' :: (z ++ '|' :: rest))) →
      hm ≠ [] → (∀ c ∈ hm, c ≠ '\n') → y ≠ [] → (∀ c ∈ y, isJsSpace c = true) →
      z ≠ [] → (∀ c ∈ z, sepClass c = true) →
      (validateContent fs dir rel content).errors.filter
        (fun e => e.rule == "table-first") = []) := by
  refine ⟨validateFile_ok h, ?_, ?_⟩
  · rw [errors_filter_table]
    unfold tableErrors
    rfl
  · intro pre hm y z rest heq hhm hnl hy hys hz hzs
    rw [errors_filter_table]
    unfold tableErrors
    rw [heq, hasTable_construct pre hm y z rest hhm hnl hy hys hz hzs]
    rfl

/-- Counterexample to C4 as stated. The document contains no Markdown
table in the claim's line-based sense (no line is pipe-delimited, let
alone a header/separator pair), yet `validateFile` emits no `table-first`
error, because the regex matches within the single line. -/
theorem c4_table_first_counterexample :
    claimHasTable c4ceDoc.data = false ∧
    (validateContent c4ceFs "refs" "doc.md" c4ceDoc).errors.filter
      (fun e => e.rule == "table-first") = [] ∧
    validateFile c4ceFs "refs" "doc.md" =
      Except.ok (validateContent c4ceFs "refs" "doc.md" c4ceDoc) :=
  ⟨by decide, by decide, rfl⟩

/-- Witness for C4 (amended): the header/separator decomposition of the
fixture document discharges every hypothesis, so it gets no `table-first`
finding. -/
theorem c4_table_first_witness :
    FS.readFileContent c4wFs (joinPath "refs" "doc.md") = some c4wDoc ∧
    (validateContent c4wFs "refs" "doc.md" c4wDoc).errors.filter
      (fun e => e.rule == "table-first") = [] :=
  ⟨rfl,
   (c4_table_first c4wFs "refs" "doc.md" c4wDoc rfl).2.2
     ("# T\n\n").data (" a ").data ("\n").data ("---").data ("\n").data
     (by decide) (by decide) (by decide) (by decide) (by decide) (by decide) (by decide)⟩

/-! ## Claim C2 -/
/-- Claim C2. The link-integrity rule scans the raw (unstripped) text: the
`valid-links` slice of the error list is exactly the in-order scan of the
raw text's inline links, where an `http://`/`https://` target is never
checked, a `#` target is never checked, and any other target produces an
error exactly when the target resolved against the document's directory
does not exist on disk; each error's message contains the literal target
text. -/
theorem c2_link_integrity (fs : FS) (dir rel content : String)
    (h : FS.readFileContent fs (joinPath dir rel) = some content) :
    validateFile fs dir rel = .ok (validateContent fs dir rel content) ∧
    (validateContent fs dir rel content).errors.filter (fun e => e.rule == "valid-links") =
      (scanLinks content.data).filterMap (checkLink fs (joinPath dir (dirname rel))) ∧
    (∀ t, isExternalLink t = true →
      checkLink fs (joinPath dir (dirname rel)) t = none) ∧
    (∀ t, isExternalLink t = false → isAnchorLink t = true →
      checkLink fs (joinPath dir (dirname rel)) t = none) ∧
    (∀ t, isExternalLink t = false → isAnchorLink t = false →
      checkLink fs (joinPath dir (dirname rel)) t =
        (if fs.statExists (joinPath (joinPath dir (dirname rel)) (String.mk t)) then none
         else some { rule := "valid-links",
                     message := "Broken internal link: " ++ String.mk t })) ∧
    (∀ t e, checkLink fs (joinPath dir (dirname rel)) t = some e →
      e.rule = "valid-links" ∧ hasSub e.message.data t = true) := by
  refine ⟨validateFile_ok h, ?_, ?_, ?_, ?_, ?_⟩
  · rw [errors_filter_links]
    exact validateInternalLinks_eq fs dir rel content.data
  · intro t ht
    exact checkLink_external ht
  · intro t hext hanc
    unfold checkLink
    simp [hext, hanc]
  · intro t hext hanc
    exact checkLink_resolve hext hanc
  · intro t e he
    exact checkLink_message he

/-- Witness for C2: external targets are skipped, and the broken link is
reported even though it sits inside a code fence (the stripped text has
no link at all, so the scan must have run on the raw text). -/
theorem c2_link_integrity_witness :
    FS.readFileContent c2wFs (joinPath "refs" "doc.md") = some c2wDoc ∧
    checkLink c2wFs (joinPath "refs" (dirname "doc.md")) ("http://example.com/x").data = none ∧
    (validateContent c2wFs "refs" "doc.md" c2wDoc).errors.filter
      (fun e => e.rule == "valid-links") =
      [{ rule := "valid-links", message := "Broken internal link: ./missing.md" }] ∧
    scanLinks (stripCodeBlocks c2wDoc.data) = [] :=
  ⟨rfl,
   (c2_link_integrity c2wFs "refs" "doc.md" c2wDoc rfl).2.2.1
     ("http://example.com/x").data (by decide),
   by decide, by decide⟩

/-! ## Claim C10 -/
/-- Claim C10. When a text is a sequence of backtick-free segments joined by
```` ``` ```` fence markers, stripping removes only the complete pairs:
the result is `stripExpected`, which for an odd number of markers keeps
everything from the final unmatched marker to the end; the single-h1 count
is taken on that stripped text, so `#`-space lines in the trailing region
still count. -/
theorem c10_unmatched_fence (parts : List (List Char)) (h : ∀ p ∈ parts, '`' ∉ p) :
    stripCodeBlocks (interFences parts) = stripExpected parts ∧
    h1Count (stripCodeBlocks (interFences parts)) = h1Count (stripExpected parts) ∧
    (∀ ps q, parts = ps ++ [q] → ps.length % 2 = 1 →
      ∃ pre, stripCodeBlocks (interFences parts) = pre ++ '`' :: '`' :: '`' :: q) := by
  have h1 : stripCodeBlocks (interFences parts) = stripExpected parts :=
    stripAux_parts parts (interFences parts).length h (le_refl _)
  refine ⟨h1, by rw [h1], ?_⟩
  intro ps q hpq hodd
  obtain ⟨pre, hpre⟩ := stripExpected_suffix ps q hodd
  exact ⟨pre, by rw [h1, hpq, hpre]⟩

/-- Witness for C10: on the fixture segments the stripped text keeps the
trailing fence and its region, and the trailing `# Trail` heading is
counted. -/
theorem c10_unmatched_fence_witness :
    stripCodeBlocks (interFences c10parts) = stripExpected c10parts ∧
    (∃ pre, stripCodeBlocks (interFences c10parts) =
      pre ++ '`' :: '`' :: '`' :: ("\n# Trail\n").data) ∧
    h1Count (stripCodeBlocks (interFences c10parts)) = 1 :=
  ⟨(c10_unmatched_fence c10parts (by decide)).1,
   (c10_unmatched_fence c10parts (by decide)).2.2
     [("A\n").data, ("\n# Inside\n").data, ("\nx\n").data] (("\n# Trail\n").data)
     rfl (by decide),
   by decide⟩
